import Mathlib

/-!
Shallow embedding of the BirdSong-Visualizer DSP pipeline
(web/src/dsp/windowing.ts, fft.ts, spectrogram.ts, melFilterbank.ts,
mfcc.ts, pca.ts and the audio worker web/src/workers), with theorems
settling the specification claims about it.

Sample values are modelled as real numbers; machine integers (array
lengths, counts) as naturals, with the one signed quantity (the frame
count before clamping) as an integer with floor division, mirroring
Math.floor in the source on a possibly negative quotient.
-/

namespace BirdSong

noncomputable section

open Classical

/-- Constant from dsp/config.ts: DSP_CONFIG.preEmphasisCoeff. -/
def preEmphasisCoeff : ℝ := 0.97

/-- Embeds hannWindow (windowing.ts): w[i] = 0.5 * (1 - cos(2*pi*(i/(size-1)))).
The divisor size-1 is a JS number, so it is real subtraction here. -/
def hannWindow (size : ℕ) : List ℝ :=
  (List.range size).map (fun (i : ℕ) =>
    0.5 * (1 - Real.cos (2 * Real.pi * ((i : ℝ) / ((size : ℝ) - 1)))))

/-- Embeds applyWindow (windowing.ts): element-wise product.  The source throws
when the lengths differ; that branch is modelled by the empty list and is
unreachable from computeSpectrogram, where both arguments have length
windowSize. -/
def applyWindow (samples window : List ℝ) : List ℝ :=
  if samples.length = window.length then List.zipWith (· * ·) samples window else []

/-- Even-index elements x[0], x[2], ... (the `even` array in fft.ts). -/
def deinterleaveEven : List ℝ → List ℝ
  | [] => []
  | [x] => [x]
  | x :: _ :: rest => x :: deinterleaveEven rest

/-- Odd-index elements x[1], x[3], ... (the `odd` array in fft.ts). -/
def deinterleaveOdd : List ℝ → List ℝ
  | [] => []
  | [_] => []
  | _ :: y :: rest => y :: deinterleaveOdd rest

theorem length_deinterleaveEven (l : List ℝ) :
    (deinterleaveEven l).length = (l.length + 1) / 2 := by
  induction l using deinterleaveEven.induct with
  | case1 => simp [deinterleaveEven]
  | case2 x => simp [deinterleaveEven]
  | case3 x y rest ih =>
      simp only [deinterleaveEven, List.length_cons, ih]
      omega

theorem length_deinterleaveOdd (l : List ℝ) :
    (deinterleaveOdd l).length = l.length / 2 := by
  induction l using deinterleaveOdd.induct with
  | case1 => simp [deinterleaveOdd]
  | case2 x => simp [deinterleaveOdd]
  | case3 x y rest ih =>
      simp only [deinterleaveOdd, List.length_cons, ih]
      omega

/-- Embeds the recursive radix-2 Cooley-Tukey fft (fft.ts), returning the pair
(real parts, imaginary parts).  The base case of the source is N = 1; on the empty
list (never reached from computeFFT with a positive size, and divergent in the
source) this embedding returns the empty pair. -/
def fft (x : List ℝ) : List ℝ × List ℝ :=
  if h : x.length ≤ 1 then
    (x, x.map (fun _ => 0))
  else
    let N := x.length
    let e := fft (deinterleaveEven x)
    let o := fft (deinterleaveOdd x)
    let combine := (List.range (N / 2)).map (fun (k : ℕ) =>
      let angle := -2 * Real.pi * (k : ℝ) / (N : ℝ)
      let c := Real.cos angle
      let s := Real.sin angle
      let tR := c * (o.1.getD k 0) - s * (o.2.getD k 0)
      let tI := s * (o.1.getD k 0) + c * (o.2.getD k 0)
      ((e.1.getD k 0 + tR, e.2.getD k 0 + tI), (e.1.getD k 0 - tR, e.2.getD k 0 - tI)))
    (combine.map (fun p => p.1.1) ++ combine.map (fun p => p.2.1),
     combine.map (fun p => p.1.2) ++ combine.map (fun p => p.2.2))
termination_by x.length
decreasing_by
  · have := length_deinterleaveEven x
    omega
  · have := length_deinterleaveOdd x
    omega

/-- Next power of two, as computed by Math.pow(2, Math.ceil(Math.log2 n))
in fft.ts and spectrogram.ts.  For n = 0 the JS expression evaluates to
2^(-infinity) = 0. -/
def nextPow2 (n : ℕ) : ℕ :=
  if n = 0 then 0 else 2 ^ (Nat.clog 2 n)

/-- Embeds computeFFT (fft.ts): pad (or truncate) the input to
nextPow2 fftSize and run fft. -/
def computeFFT (samples : List ℝ) (fftSize : ℕ) : List ℝ × List ℝ :=
  let actualSize := nextPow2 fftSize
  fft (samples.take actualSize ++ List.replicate (actualSize - samples.length) 0)

/-- Embeds magnitudeSpectrum (fft.ts): sqrt(re^2 + im^2) per bin. -/
def magnitudeSpectrum (r : List ℝ × List ℝ) : List ℝ :=
  List.zipWith (fun re im => Real.sqrt (re * re + im * im)) r.1 r.2

/-- Embeds the pre-emphasis filter in computeSpectrogram (spectrogram.ts):
y[0] = x[0], y[i] = x[i] - 0.97 * x[i-1]. -/
def preEmphasis : List ℝ → List ℝ
  | [] => []
  | x :: xs => x :: List.zipWith (fun cur prev => cur - preEmphasisCoeff * prev) xs (x :: xs)

/-- Frame start offsets actually processed by the STFT loop in
computeSpectrogram: frameIdx * hopSize for frameIdx below the frame count,
stopping early (the `break`) as soon as a full window no longer fits. -/
def frameStarts (len windowSize hopSize : ℕ) (nFrames : ℤ) : List ℕ :=
  ((List.range nFrames.toNat).map (fun i => i * hopSize)).takeWhile
    (fun start => start + windowSize ≤ len)

/-- Result record of computeSpectrogram (spectrogram.ts). -/
structure SpectrogramResult where
  data : List (List ℝ)
  sampleRate : ℕ
  hopSize : ℕ
  windowSize : ℕ
  nFrames : ℕ
  nBins : ℕ

/-- Embeds computeSpectrogram (spectrogram.ts): pre-emphasis, framing with
hop, Hann window, zero-padding to the next power of two, FFT, magnitudes
truncated to fftSize/2 + 1 bins.  The frame count is
min maxFrames (floor((len - windowSize)/hopSize) + 1), computed in ℤ with
floor division because the numerator may be negative in the source. -/
def computeSpectrogram (samples : List ℝ) (sampleRate : ℕ)
    (windowSize hopSize maxFrames : ℕ) : SpectrogramResult :=
  let pre := preEmphasis samples
  let nF : ℤ := min (maxFrames : ℤ) ((((pre.length : ℤ) - (windowSize : ℤ)).fdiv (hopSize : ℤ)) + 1)
  let window := hannWindow windowSize
  let fftSize := nextPow2 windowSize
  let data := (frameStarts pre.length windowSize hopSize nF).map (fun start =>
    let frame := (pre.drop start).take windowSize
    let windowed := applyWindow frame window
    let padded := windowed ++ List.replicate (fftSize - windowed.length) 0
    let magnitude := magnitudeSpectrum (computeFFT padded fftSize)
    magnitude.take (fftSize / 2 + 1))
  { data := data
    sampleRate := sampleRate
    hopSize := hopSize
    windowSize := windowSize
    nFrames := data.length
    nBins := (data.headD []).length }

/-- Dot product of two weight/value lists, truncating to the shorter one,
exactly as the apply loop in melFilterbank.ts sums over
min(filter.length, spectrum.length) entries. -/
def dotList (a b : List ℝ) : ℝ :=
  (List.zipWith (· * ·) a b).sum

/-- Embeds hzToMel (melFilterbank.ts): mel = 2595 * log10(1 + hz/700). -/
def hzToMel (hz : ℝ) : ℝ :=
  2595 * Real.logb 10 (1 + hz / 700)

/-- Embeds melToHz (melFilterbank.ts): hz = 700 * (10^(mel/2595) - 1). -/
def melToHz (mel : ℝ) : ℝ :=
  700 * ((10 : ℝ) ^ (mel / 2595) - 1)

/-- Embeds createFilters (melFilterbank.ts): melBins triangular filters,
each a weight vector over the floor(fftSize/2)+1 frequency bins. -/
def createFilters (sampleRate fftSize melBins : ℕ) (fMin fMax : ℝ) : List (List ℝ) :=
  let freqResolution := (sampleRate : ℝ) / (fftSize : ℝ)
  let nFreqBins := fftSize / 2 + 1
  let melMin := hzToMel fMin
  let melMax := hzToMel fMax
  let melSpacing := (melMax - melMin) / ((melBins : ℝ) + 1)
  let centerFreqs := (List.range (melBins + 2)).map (fun i => melToHz (melMin + melSpacing * i))
  (List.range melBins).map (fun melIdx =>
    let leftFreq := centerFreqs.getD melIdx 0
    let centerFreq := centerFreqs.getD (melIdx + 1) 0
    let rightFreq := centerFreqs.getD (melIdx + 2) 0
    (List.range nFreqBins).map (fun (freqIdx : ℕ) =>
      let freq := (freqIdx : ℝ) * freqResolution
      if leftFreq ≤ freq ∧ freq ≤ centerFreq then
        (freq - leftFreq) / (centerFreq - leftFreq)
      else if centerFreq < freq ∧ freq ≤ rightFreq then
        (rightFreq - freq) / (rightFreq - centerFreq)
      else 0))

/-- State of a MelFilterbank instance (melFilterbank.ts) after its
constructor ran. -/
structure MelFilterbank where
  sampleRate : ℕ
  fftSize : ℕ
  melBins : ℕ
  fMin : ℝ
  fMax : ℝ
  filters : List (List ℝ)

/-- Embeds the MelFilterbank constructor: clamps fMax to the Nyquist
frequency and precomputes the filter table. -/
def mkMelFilterbank (sampleRate fftSize melBins : ℕ) (fMin fMax : ℝ) : MelFilterbank :=
  let clamped := min fMax ((sampleRate : ℝ) / 2)
  { sampleRate := sampleRate
    fftSize := fftSize
    melBins := melBins
    fMin := fMin
    fMax := clamped
    filters := createFilters sampleRate fftSize melBins fMin clamped }

/-- Expected spectrum length checked by MelFilterbank.apply:
floor(fftSize/2) + 1. -/
def expectedBins (fb : MelFilterbank) : ℕ :=
  fb.fftSize / 2 + 1

/-- Embeds MelFilterbank.apply (melFilterbank.ts): throws (here: Except.error)
when the spectrum bin count is wrong, otherwise one weighted sum per filter. -/
def MelFilterbank.apply (fb : MelFilterbank) (magSpectrum : List ℝ) : Except String (List ℝ) :=
  if magSpectrum.length = expectedBins fb then
    Except.ok (fb.filters.map (fun filt => dotList filt magSpectrum))
  else
    Except.error "Magnitude spectrum size mismatch"

/-- Embeds dct2 (mfcc.ts): DCT-II restricted to the first `count`
coefficients, with sum/sqrt(n) for k = 0 and sum * sqrt(2/n) for k > 0. -/
def dct2 (input : List ℝ) (count : ℕ) : List ℝ :=
  let n := input.length
  (List.range count).map (fun (k : ℕ) =>
    let sum := ((List.range n).map (fun (i : ℕ) =>
      input.getD i 0 * Real.cos (Real.pi * (k : ℝ) * ((i : ℝ) + 0.5) / (n : ℝ)))).sum
    if k = 0 then sum / Real.sqrt (n : ℝ) else sum * Real.sqrt (2 / (n : ℝ)))

/-- Embeds computeMFCC (mfcc.ts): per spectral frame, apply the filterbank,
square to power, take log10(power + 1e-10), and DCT-II to mfccCount
coefficients.  The filterbank length check can throw, which propagates. -/
def computeMFCC (sp : SpectrogramResult) (fb : MelFilterbank) (mfccCount : ℕ) :
    Except String (List (List ℝ)) :=
  sp.data.mapM (fun magnitudeFrame =>
    (fb.apply magnitudeFrame).map (fun melSpectrum =>
      let powerSpectrum := melSpectrum.map (fun m => m * m)
      let logMel := powerSpectrum.map (fun p => Real.logb 10 (p + 1e-10))
      dct2 logMel mfccCount))

/-- Column j of a row-major matrix (0 when a row is too short). -/
def colOf (m : List (List ℝ)) (j : ℕ) : List ℝ :=
  m.map (fun r => r.getD j 0)

/-- Per-feature means in computePCA3D (pca.ts): means[f] = sum_t x[t][f] / T. -/
def pcaMeans (mfcc : List (List ℝ)) (featureCount : ℕ) : List ℝ :=
  (List.range featureCount).map (fun f => (colOf mfcc f).sum / (mfcc.length : ℝ))

/-- Centered data matrix in computePCA3D: each row minus the per-feature
means.  Row-major access row[f] matches the flat source matrix[t*F + f]
because every row of a FeatureMatrix has length featureCount. -/
def pcaCentered (mfcc : List (List ℝ)) (featureCount : ℕ) : List (List ℝ) :=
  let means := pcaMeans mfcc featureCount
  mfcc.map (fun row => (List.range featureCount).map (fun f => row.getD f 0 - means.getD f 0))

/-- Covariance matrix in computePCA3D: C[i][j] = (sum_t c[t][i]*c[t][j]) * scale
with scale = 1/max(1, T-1). -/
def pcaCovariance (centered : List (List ℝ)) (featureCount timeSteps : ℕ) : List (List ℝ) :=
  let scale := 1 / (max 1 ((timeSteps : ℝ) - 1))
  (List.range featureCount).map (fun i =>
    (List.range featureCount).map (fun j =>
      ((centered.map (fun row => row.getD i 0 * row.getD j 0)).sum) * scale))

/-- One-hot seed vector that seeds power iteration (vec[pcIdx % n] = 1). -/
def oneHot (n j : ℕ) : List ℝ :=
  (List.range n).map (fun i => if i = j then 1 else 0)

/-- One pass of subtracting the projections onto all previously found
components, in order (the orthogonalization loops in computeTopEigenvectors). -/
def orthoStep (prev : List (List ℝ)) (v : List ℝ) : List ℝ :=
  prev.foldl (fun w p =>
    let d := dotList w p
    List.zipWith (fun wi pi => wi - d * pi) w p) v

/-- Matrix-vector product newVec[i] = sum_j covariance[i][j] * vec[j]. -/
def matVec (cov : List (List ℝ)) (v : List ℝ) : List ℝ :=
  cov.map (fun row => dotList row v)

/-- Normalization with the norm > 1e-6 guard in computeTopEigenvectors. -/
def normalizeGuard (v : List ℝ) : List ℝ :=
  let norm := Real.sqrt ((v.map (fun x => x * x)).sum)
  if 1e-6 < norm then v.map (fun x => x / norm) else v

/-- The fixed-round power iteration body: multiply by the covariance,
normalize under the guard, re-orthogonalize against earlier components. -/
def pcaIterate (cov : List (List ℝ)) (prev : List (List ℝ)) : ℕ → List ℝ → List ℝ
  | 0, v => v
  | k + 1, v => pcaIterate cov prev k (orthoStep prev (normalizeGuard (matVec cov v)))

/-- Embeds computeTopEigenvectors (pca.ts): k components, each seeded one-hot,
orthogonalized, then refined by 10 rounds of power iteration. -/
def computeTopEigenvectors (cov : List (List ℝ)) (n k : ℕ) : List (List ℝ) :=
  (List.range k).foldl (fun comps pcIdx =>
    comps ++ [pcaIterate cov comps 10 (orthoStep comps (oneHot n (pcIdx % n)))]) []

/-- The raw 3D coordinates in computePCA3D before normalization: each centered
row projected onto the three components. -/
def pcaProjected (mfcc : List (List ℝ)) : List (List ℝ) :=
  let featureCount := (mfcc.headD []).length
  let centered := pcaCentered mfcc featureCount
  let covariance := pcaCovariance centered featureCount mfcc.length
  let components := computeTopEigenvectors covariance featureCount 3
  centered.map (fun row =>
    (List.range 3).map (fun pc =>
      ((List.range featureCount).map (fun f =>
        row.getD f 0 * (components.getD pc []).getD f 0)).sum))

/-- The per-axis z-score step in computePCA3D: mean and variance across
frames (variance divided by T), normalized only when std > 1e-6. -/
def normalizeAxis (col : List ℝ) : List ℝ :=
  let m := col.sum / (col.length : ℝ)
  let v := ((col.map (fun x => (x - m) * (x - m))).sum) / (col.length : ℝ)
  let s := Real.sqrt v
  if 1e-6 < s then col.map (fun x => (x - m) / s) else col

/-- The normalization loop of computePCA3D applied to all three axes of the
projected points. -/
def normalizePoints (projected : List (List ℝ)) : List (List ℝ) :=
  (List.range projected.length).map (fun t =>
    (List.range 3).map (fun pc => (normalizeAxis (colOf projected pc)).getD t 0))

/-- Embeds computePCA3D (pca.ts): center, covariance, three power-iteration
components, projection, per-axis guarded z-score normalization; empty input
returns the empty list immediately. -/
def computePCA3D (mfcc : List (List ℝ)) : List (List ℝ) :=
  if mfcc.isEmpty then [] else normalizePoints (pcaProjected mfcc)

/-- Requests reaching the audio worker (types.ts WorkerMessage); the
loadVideo/extractAudio variants fall to the default branch of the worker and are
represented by `other` with their type tag. -/
inductive WorkerMessage where
  | computeSpectrogram (samples : List ℝ) (sampleRate : ℕ)
  | computeMfccPca (samples : List ℝ) (sampleRate : ℕ)
  | cancel
  | other (tag : String)

/-- Responses emitted by the audio worker (types.ts WorkerResponse). -/
inductive WorkerResponse where
  | progress (stage : String) (fraction : ℝ)
  | spectrogramComputed (data : List (List ℝ)) (sampleRate : ℕ)
  | mfccPcaComputed (points : List (List ℝ)) (mfcc : List (List ℝ))
  | error (message : String)

/-- The COMPUTE_MFCC_PCA body of the worker (audioProcessor.worker.ts):
spectrogram with the config defaults, FFT size recovered from the first
spectrogram row (2048 when there is none), filterbank with defaults
melBins = 128, fMin = 500, fMax = 12000, MFCC with mfccCount = 40, then PCA.
Returns the spectrogram together with either the (points, mfcc) payload or
the propagated error message. -/
def mfccPcaPipeline (samples : List ℝ) (sampleRate : ℕ) :
    SpectrogramResult × Except String (List (List ℝ) × List (List ℝ)) :=
  let sp := computeSpectrogram samples sampleRate 2048 512 2000
  let fftSize := match sp.data with
    | [] => 2048
    | row :: _ => (row.length - 1) * 2
  let fb := mkMelFilterbank sampleRate fftSize 128 500 12000
  match computeMFCC sp fb 40 with
  | Except.error e => (sp, Except.error e)
  | Except.ok mfcc => (sp, Except.ok (computePCA3D mfcc, mfcc))

/-- The responses posted while handling one message, in order
(the onmessage switch in audioProcessor.worker.ts).  The CANCEL case posts
nothing and changes nothing; unknown types produce an ERROR response. -/
def processMessage : WorkerMessage → List WorkerResponse
  | WorkerMessage.computeSpectrogram samples sampleRate =>
      let sp := computeSpectrogram samples sampleRate 2048 512 2000
      [WorkerResponse.progress "Computing spectrogram" 0.1,
       WorkerResponse.progress "Computing spectrogram" 0.9,
       WorkerResponse.spectrogramComputed sp.data sp.sampleRate]
  | WorkerMessage.computeMfccPca samples sampleRate =>
      let r := mfccPcaPipeline samples sampleRate
      match r.2 with
      | Except.error e =>
          [WorkerResponse.progress "Computing spectrogram" 0.1,
           WorkerResponse.progress "Computing mel features" 0.3,
           WorkerResponse.progress "Computing MFCC" 0.5,
           WorkerResponse.error e]
      | Except.ok payload =>
          [WorkerResponse.progress "Computing spectrogram" 0.1,
           WorkerResponse.progress "Computing mel features" 0.3,
           WorkerResponse.progress "Computing MFCC" 0.5,
           WorkerResponse.progress "Computing PCA" 0.8,
           WorkerResponse.mfccPcaComputed payload.1 payload.2]
  | WorkerMessage.cancel => []
  | WorkerMessage.other tag => [WorkerResponse.error ("Unknown message type: " ++ tag)]

/-- The worker processes its message queue one message at a time, each
handler running to completion before the next message is dequeued. -/
def runWorker (msgs : List WorkerMessage) : List WorkerResponse :=
  msgs.flatMap processMessage

/-- Modelled from the claim wording of C7 for the refinement comparison:
the Type-II discrete cosine transform restricted to the first `count`
coefficients, coefficient 0 multiplied by 1/sqrt(n), coefficients k > 0
multiplied by sqrt(2/n), on sums of x_i * cos(pi*(i + 1/2)*k/n). -/
def dct2Claim (input : List ℝ) (count : ℕ) : List ℝ :=
  let n := input.length
  (List.range count).map (fun (k : ℕ) =>
    let s := ((List.range n).map (fun (i : ℕ) =>
      input.getD i 0 * Real.cos (Real.pi * ((i : ℝ) + 1 / 2) * (k : ℝ) / (n : ℝ)))).sum
    if k = 0 then (1 / Real.sqrt (n : ℝ)) * s else Real.sqrt (2 / (n : ℝ)) * s)

/-- Modelled from the claim wording of C7: per spectral frame, filterbank
projection, squaring to power, log10(power + 1e-10), then the DCT-II of the claim. -/
def mfccClaimFrame (fb : MelFilterbank) (frame : List ℝ) (mfccCount : ℕ) : List ℝ :=
  let mel := fb.filters.map (fun filt => dotList filt frame)
  dct2Claim (mel.map (fun m => Real.logb 10 (m * m + 1e-10))) mfccCount

/-- Mean of an output axis across frames, the quantity computed by the
normalization loop of computePCA3D (sum / timeSteps). -/
def axisMean (col : List ℝ) : ℝ :=
  col.sum / (col.length : ℝ)

/-- Standard deviation of an output axis across frames, the quantity
computed by the normalization loop of computePCA3D
(sqrt of the T-divided variance). -/
def axisStd (col : List ℝ) : ℝ :=
  Real.sqrt (((col.map (fun x => (x - axisMean col) * (x - axisMean col))).sum) / (col.length : ℝ))

theorem getD_range_map (f : ℕ → ℝ) (n i : ℕ) (hi : i < n) :
    ((List.range n).map f).getD i 0 = f i := by
  simp [List.getD_eq_getElem?_getD, List.getElem?_map, List.getElem?_range, hi]

/-- C5: for every window size N >= 1 produced by hannWindow with
w[i] = 0.5*(1 - cos(2*pi*i/(N-1))), and every index i < N, the window value
at i equals the value at N-1-i: the Hann window is symmetric. -/
theorem hannWindow_symmetric (N : ℕ) (hN : 1 ≤ N) (i : ℕ) (hi : i < N) :
    (hannWindow N).getD i 0 = (hannWindow N).getD (N - 1 - i) 0 := by
  have hj : N - 1 - i < N := by omega
  rw [hannWindow, getD_range_map _ _ _ hi, getD_range_map _ _ _ hj]
  rcases Nat.eq_or_lt_of_le hN with h1 | h2
  · have : i = 0 := by omega
    have : N - 1 - i = i := by omega
    rw [this]
  · have hiN : i ≤ N - 1 := by omega
    have hcast : ((N - 1 - i : ℕ) : ℝ) = (N : ℝ) - 1 - (i : ℝ) := by
      rw [Nat.cast_sub hiN, Nat.cast_sub hN, Nat.cast_one]
    have hden : (N : ℝ) - 1 ≠ 0 := by
      have : (2 : ℝ) ≤ (N : ℝ) := by exact_mod_cast h2
      linarith
    have harg : 2 * Real.pi * (((N - 1 - i : ℕ) : ℝ) / ((N : ℝ) - 1)) =
        2 * Real.pi - 2 * Real.pi * ((i : ℝ) / ((N : ℝ) - 1)) := by
      rw [hcast]
      field_simp
      ring
    rw [harg, Real.cos_two_pi_sub]

/-- Witness for C5 at N = 3, i = 0. -/
theorem hannWindow_symmetric_witness :
    (hannWindow 3).getD 0 0 = (hannWindow 3).getD (3 - 1 - 0) 0 :=
  hannWindow_symmetric 3 (by decide) 0 (by decide)

theorem fft_lengths (l : List ℝ) :
    (fft l).1.length = (if l.length ≤ 1 then l.length else 2 * (l.length / 2)) ∧
    (fft l).2.length = (if l.length ≤ 1 then l.length else 2 * (l.length / 2)) := by
  rw [fft]
  split
  · simp
  · simp
    omega

theorem fft_length_pow2 (k : ℕ) (l : List ℝ) (h : l.length = 2 ^ k) :
    (fft l).1.length = l.length ∧ (fft l).2.length = l.length := by
  obtain ⟨h1, h2⟩ := fft_lengths l
  have hiff : (if l.length ≤ 1 then l.length else 2 * (l.length / 2)) = l.length := by
    rcases le_or_lt l.length 1 with hle | hgt
    · rw [if_pos hle]
    · rw [if_neg (by omega)]
      rw [h] at hgt ⊢
      cases k with
      | zero => norm_num at hgt
      | succ k =>
          rw [pow_succ]
          omega
  rw [h1, h2, hiff]
  exact ⟨rfl, rfl⟩

/-- C4 (amended): for every samples list and every fftSize >= 1, computeFFT
pads or truncates the input to the next power of two at least fftSize, and
both output component lists have exactly that power-of-two length
(2 ^ clog2 fftSize, shown to be the least power of two >= fftSize). -/
theorem computeFFT_output_length_pow2 (samples : List ℝ) (fftSize : ℕ) (h : 1 ≤ fftSize) :
    (computeFFT samples fftSize).1.length = 2 ^ Nat.clog 2 fftSize ∧
    (computeFFT samples fftSize).2.length = 2 ^ Nat.clog 2 fftSize ∧
    fftSize ≤ 2 ^ Nat.clog 2 fftSize ∧
    (∀ m : ℕ, fftSize ≤ 2 ^ m → 2 ^ Nat.clog 2 fftSize ≤ 2 ^ m) := by
  have hne : fftSize ≠ 0 := by omega
  have hact : nextPow2 fftSize = 2 ^ Nat.clog 2 fftSize := by
    rw [nextPow2, if_neg hne]
  have hinlen : (samples.take (nextPow2 fftSize) ++
      List.replicate (nextPow2 fftSize - samples.length) (0:ℝ)).length = nextPow2 fftSize := by
    simp
    omega
  have hlens := fft_length_pow2 (Nat.clog 2 fftSize)
      (samples.take (nextPow2 fftSize) ++ List.replicate (nextPow2 fftSize - samples.length) (0:ℝ))
      (by rw [hinlen, hact])
  refine ⟨?_, ?_, Nat.le_pow_clog (by norm_num) fftSize, ?_⟩
  · rw [computeFFT]
    rw [hlens.1, hinlen, hact]
  · rw [computeFFT]
    rw [hlens.2, hinlen, hact]
  · intro m hm
    exact Nat.pow_le_pow_right (by norm_num) ((Nat.le_pow_iff_clog_le (by norm_num)).mp hm)

/-- Witness for C4 (amended) at samples = [1,2,3], fftSize = 5. -/
theorem computeFFT_output_length_pow2_witness :
    1 ≤ 5 ∧ (computeFFT [1, 2, 3] 5).1.length = 2 ^ Nat.clog 2 5 :=
  ⟨by decide, (computeFFT_output_length_pow2 [1, 2, 3] 5 (by decide)).1⟩

/-- Counterexample to C4 as stated: at fftSize = 0 the padded size computed
by the source (2 raised to ceil(log2 0) = -infinity) is 0, so the output
arrays do not have a power-of-two length (the least power of two at least 0
is 2 ^ clog2 0 = 1); on this input the source recurses without a base case. -/
theorem computeFFT_fftSize_zero_not_pow2 :
    (computeFFT ([] : List ℝ) 0).1.length = 0 ∧ (2 : ℕ) ^ Nat.clog 2 0 = 1 := by
  constructor
  · rw [computeFFT]
    simp only [nextPow2, if_pos rfl]
    rw [fft]
    simp
  · simp [Nat.clog_zero_right]

theorem preEmphasis_length (l : List ℝ) : (preEmphasis l).length = l.length := by
  cases l with
  | nil => rfl
  | cons x xs => simp [preEmphasis]

theorem hannWindow_length (size : ℕ) : (hannWindow size).length = size := by
  simp [hannWindow]

theorem computeSpectrogram_bins (samples : List ℝ) (sr w h m : ℕ) (hw : 1 ≤ w) :
    ∀ fr ∈ (computeSpectrogram samples sr w h m).data, fr.length = nextPow2 w / 2 + 1 := by
  have hpre : (preEmphasis samples).length = samples.length := preEmphasis_length samples
  set len := samples.length with hlen
  set nF : ℤ := min (m : ℤ) ((((len : ℤ) - (w : ℤ)).fdiv (h : ℤ)) + 1) with hnF
  have hdata : (computeSpectrogram samples sr w h m).data =
      (frameStarts len w h nF).map (fun start =>
        let frame := ((preEmphasis samples).drop start).take w
        let windowed := applyWindow frame (hannWindow w)
        let padded := windowed ++ List.replicate (nextPow2 w - windowed.length) 0
        (magnitudeSpectrum (computeFFT padded (nextPow2 w))).take (nextPow2 w / 2 + 1)) := by
    rw [computeSpectrogram]
    rw [hpre]
  intro fr hfr
  rw [hdata] at hfr
  obtain ⟨start, hstart, rfl⟩ := List.mem_map.mp hfr
  have hguard : start + w ≤ len := by
    have := List.mem_takeWhile_imp hstart
    simpa using this
  have hframe : (((preEmphasis samples).drop start).take w).length = w := by
    simp [hpre]
    omega
  have hwinlen : (hannWindow w).length = w := hannWindow_length w
  have happ : (applyWindow (((preEmphasis samples).drop start).take w) (hannWindow w)).length
      = w := by
    rw [applyWindow, if_pos (by rw [hframe, hwinlen])]
    simp [hframe, hwinlen]
  have hwle : w ≤ nextPow2 w := by
    rw [nextPow2, if_neg (by omega)]
    exact Nat.le_pow_clog (by norm_num) w
  have hpadlen : ((applyWindow (((preEmphasis samples).drop start).take w) (hannWindow w)
      ++ List.replicate (nextPow2 w - (applyWindow (((preEmphasis samples).drop start).take w)
        (hannWindow w)).length) (0:ℝ))).length = nextPow2 w := by
    simp [happ]
    omega
  have hpow : nextPow2 w = 2 ^ Nat.clog 2 w := by
    rw [nextPow2, if_neg (by omega)]
  have hactual : nextPow2 (nextPow2 w) = nextPow2 w := by
    rw [hpow, nextPow2, if_neg (by positivity), Nat.clog_pow 2 _ (by norm_num)]
  have hfftlen := fft_length_pow2 (Nat.clog 2 w) _
    (show ((applyWindow (((preEmphasis samples).drop start).take w) (hannWindow w)
      ++ List.replicate (nextPow2 w - (applyWindow (((preEmphasis samples).drop start).take w)
        (hannWindow w)).length) (0:ℝ)).take (nextPow2 (nextPow2 w)) ++
      List.replicate (nextPow2 (nextPow2 w) - (applyWindow (((preEmphasis samples).drop start).take w)
        (hannWindow w) ++ List.replicate (nextPow2 w - (applyWindow (((preEmphasis samples).drop
        start).take w) (hannWindow w)).length) (0:ℝ)).length) (0:ℝ)).length = 2 ^ Nat.clog 2 w by
      rw [hactual]
      simp only [List.length_append, List.length_take, List.length_replicate, hpadlen]
      rw [← hpow]
      omega)
  have hmaglen : (magnitudeSpectrum (computeFFT
      (applyWindow (((preEmphasis samples).drop start).take w) (hannWindow w)
        ++ List.replicate (nextPow2 w - (applyWindow (((preEmphasis samples).drop start).take w)
          (hannWindow w)).length) (0:ℝ)) (nextPow2 w))).length = nextPow2 w := by
    rw [magnitudeSpectrum, computeFFT, List.length_zipWith]
    rw [hactual] at hfftlen ⊢
    rw [hfftlen.1, hfftlen.2]
    simp only [List.length_append, List.length_take, List.length_replicate, hpadlen]
    rw [← hpow] at *
    omega
  simp only [List.length_take, hmaglen]
  have h1 : 1 ≤ nextPow2 w := by omega
  omega

/-- C1: for every samples list, sample rate, windowSize >= 1, hopSize >= 1
and maxFrames, the spectrogram has min(maxFrames,
floor((len(preemphasized) - windowSize)/hopSize) + 1) frames (preemphasized
having the length of the input), zero frames when no full window fits, and
every frame has exactly floor(fftSize/2) + 1 bins for fftSize the next power
of two >= windowSize. -/
theorem computeSpectrogram_frame_count_and_bins (samples : List ℝ) (sr w h m : ℕ)
    (hw : 1 ≤ w) (hh : 1 ≤ h) :
    (preEmphasis samples).length = samples.length ∧
    (w ≤ samples.length →
      ((computeSpectrogram samples sr w h m).data.length : ℤ) =
        min (m : ℤ) ((((samples.length : ℤ) - (w : ℤ)).fdiv (h : ℤ)) + 1)) ∧
    (samples.length < w → (computeSpectrogram samples sr w h m).data = []) ∧
    (∀ fr ∈ (computeSpectrogram samples sr w h m).data, fr.length = nextPow2 w / 2 + 1) := by
  have hpre : (preEmphasis samples).length = samples.length := preEmphasis_length samples
  set len := samples.length with hlen
  set nF : ℤ := min (m : ℤ) ((((len : ℤ) - (w : ℤ)).fdiv (h : ℤ)) + 1) with hnF
  have hdata : (computeSpectrogram samples sr w h m).data =
      (frameStarts len w h nF).map (fun start =>
        let frame := ((preEmphasis samples).drop start).take w
        let windowed := applyWindow frame (hannWindow w)
        let padded := windowed ++ List.replicate (nextPow2 w - windowed.length) 0
        (magnitudeSpectrum (computeFFT padded (nextPow2 w))).take (nextPow2 w / 2 + 1)) := by
    rw [computeSpectrogram]
    rw [hpre]
  refine ⟨hpre, ?_, ?_, ?_⟩
  · intro hfit
    have hcast : ((len : ℤ) - (w : ℤ)) = ((len - w : ℕ) : ℤ) := by
      rw [Nat.cast_sub hfit]
    have hfd : ((len : ℤ) - (w : ℤ)).fdiv (h : ℤ) = (((len - w) / h : ℕ) : ℤ) := by
      rw [hcast, Int.fdiv_eq_ediv _ (by positivity), ← Int.natCast_div]
    have hnFnat : nF = ((min m ((len - w) / h + 1) : ℕ) : ℤ) := by
      rw [hnF, hfd]
      push_cast
      rfl
    have hall : ∀ x ∈ (List.range nF.toNat).map (fun i => i * h),
        (decide (x + w ≤ len)) = true := by
      intro x hx
      obtain ⟨i, hi, rfl⟩ := List.mem_map.mp hx
      rw [List.mem_range] at hi
      rw [hnFnat, Int.toNat_natCast] at hi
      have hiq : i ≤ (len - w) / h := by omega
      have : i * h ≤ (len - w) / h * h :=
        Nat.mul_le_mul_right h hiq
      have := Nat.div_mul_le_self (len - w) h
      simp only [decide_eq_true_eq]
      omega
    have hstarts : (frameStarts len w h nF).length = nF.toNat := by
      rw [frameStarts, List.takeWhile_eq_self_iff.mpr hall]
      simp
    rw [hdata, List.length_map, hstarts, hnFnat, Int.toNat_natCast]
  · intro hlt
    have hneg : ((len : ℤ) - (w : ℤ)) < 0 := by
      have : (len : ℤ) < (w : ℤ) := by exact_mod_cast hlt
      omega
    have hfdneg : ((len : ℤ) - (w : ℤ)).fdiv (h : ℤ) < 0 := by
      rw [Int.fdiv_eq_ediv _ (by positivity)]
      exact Int.ediv_neg' hneg (by exact_mod_cast hh)
    have hnFle : nF ≤ 0 := by
      have h1 : (((len : ℤ) - (w : ℤ)).fdiv (h : ℤ)) + 1 ≤ 0 := by omega
      have := min_le_right (m : ℤ) ((((len : ℤ) - (w : ℤ)).fdiv (h : ℤ)) + 1)
      omega
    have : nF.toNat = 0 := Int.toNat_of_nonpos hnFle
    rw [hdata, frameStarts, this]
    simp
  · exact computeSpectrogram_bins samples sr w h m hw

/-- Witness for C1 at samples = [1,2,3,4,5], windowSize = 2, hopSize = 2,
maxFrames = 2000. -/
theorem computeSpectrogram_frame_count_and_bins_witness :
    1 ≤ 2 ∧ (2 ≤ ([1, 2, 3, 4, 5] : List ℝ).length →
      ((computeSpectrogram [1, 2, 3, 4, 5] 8 2 2 2000).data.length : ℤ) =
        min (2000 : ℤ) ((((([1, 2, 3, 4, 5] : List ℝ).length : ℤ) - (2 : ℤ)).fdiv (2 : ℤ)) + 1)) :=
  ⟨by decide, (computeSpectrogram_frame_count_and_bins [1, 2, 3, 4, 5] 8 2 2 2000
    (by decide) (by decide)).2.1⟩

theorem createFilters_length (sr fs mb : ℕ) (lo hi : ℝ) :
    (createFilters sr fs mb lo hi).length = mb := by
  simp [createFilters]

theorem createFilters_filter_length (sr fs mb : ℕ) (lo hi : ℝ) :
    ∀ filt ∈ createFilters sr fs mb lo hi, filt.length = fs / 2 + 1 := by
  intro filt hf
  rw [createFilters] at hf
  obtain ⟨idx, hidx, rfl⟩ := List.mem_map.mp hf
  simp

/-- C6: for every constructed MelFilterbank and every spectrum,
MelFilterbank.apply fails exactly when the spectrum length differs from
floor(fftSize/2) + 1, and on matching lengths returns one weighted sum of
the spectrum per filter, for each of the melBins filters (each filter
covering all floor(fftSize/2)+1 bins).  The filterbank itself, a pure
value, is untouched. -/
theorem melFilterbank_apply_dimension_check (sr fs mb : ℕ) (lo hi : ℝ) (spectrum : List ℝ) :
    (((mkMelFilterbank sr fs mb lo hi).apply spectrum).isOk = true ↔
      spectrum.length = fs / 2 + 1) ∧
    (spectrum.length = fs / 2 + 1 →
      (mkMelFilterbank sr fs mb lo hi).apply spectrum =
        Except.ok ((mkMelFilterbank sr fs mb lo hi).filters.map
          (fun filt => dotList filt spectrum))) ∧
    (mkMelFilterbank sr fs mb lo hi).filters.length = mb ∧
    (∀ filt ∈ (mkMelFilterbank sr fs mb lo hi).filters, filt.length = fs / 2 + 1) := by
  have hbins : expectedBins (mkMelFilterbank sr fs mb lo hi) = fs / 2 + 1 := rfl
  have hfilters : (mkMelFilterbank sr fs mb lo hi).filters =
      createFilters sr fs mb lo (min hi ((sr : ℝ) / 2)) := rfl
  refine ⟨?_, ?_, ?_, ?_⟩
  · rw [MelFilterbank.apply, hbins]
    constructor
    · intro hok
      by_contra hne
      rw [if_neg hne] at hok
      simp [Except.isOk, Except.toBool] at hok
    · intro heq
      rw [if_pos heq]
      rfl
  · intro heq
    rw [MelFilterbank.apply, hbins, if_pos heq]
  · rw [hfilters, createFilters_length]
  · rw [hfilters]
    exact createFilters_filter_length sr fs mb lo (min hi ((sr : ℝ) / 2))

/-- Witness for C6 at sampleRate = 4, fftSize = 4, melBins = 2,
spectrum = [1, 2, 3] (the matching bin count 4/2 + 1 = 3). -/
theorem melFilterbank_apply_dimension_check_witness :
    ([1, 2, 3] : List ℝ).length = 4 / 2 + 1 ∧
    (mkMelFilterbank 4 4 2 0 2).apply [1, 2, 3] =
      Except.ok ((mkMelFilterbank 4 4 2 0 2).filters.map
        (fun filt => dotList filt [1, 2, 3])) :=
  ⟨by simp, (melFilterbank_apply_dimension_check 4 4 2 0 2 [1, 2, 3]).2.1 (by simp)⟩

theorem dct2_eq_dct2Claim (input : List ℝ) (c : ℕ) : dct2 input c = dct2Claim input c := by
  simp only [dct2, dct2Claim]
  apply List.map_congr_left
  intro k _
  have hsum : ((List.range input.length).map (fun (i : ℕ) =>
        input.getD i 0 * Real.cos (Real.pi * (k : ℝ) * ((i : ℝ) + 0.5) / (input.length : ℝ)))) =
      ((List.range input.length).map (fun (i : ℕ) =>
        input.getD i 0 * Real.cos (Real.pi * ((i : ℝ) + 1 / 2) * (k : ℝ) / (input.length : ℝ)))) := by
    apply List.map_congr_left
    intro i _
    congr 2
    ring
  rw [hsum]
  split
  · ring
  · ring

theorem mapM_ok_of_forall_ok (g : List ℝ → List ℝ) {l : List (List ℝ)}
    {f : List ℝ → Except String (List ℝ)} (h : ∀ x ∈ l, f x = Except.ok (g x)) :
    l.mapM f = Except.ok (l.map g) := by
  induction l with
  | nil => rfl
  | cons x xs ih =>
      rw [List.mapM_cons, h x (by simp), ih (fun y hy => h y (by simp [hy]))]
      rfl

/-- C7: on a spectrogram whose frames all have the expected filterbank bin
count, computeMFCC succeeds and produces exactly one cepstral frame per
spectral frame, each equal to the composite stated by the claim: filterbank projection,
squaring to power, log10(power + 1e-10), then the orthonormally scaled
DCT-II restricted to the first mfccCount coefficients. -/
theorem computeMFCC_dct2_orthonormal (sp : SpectrogramResult) (fb : MelFilterbank) (c : ℕ)
    (hfr : ∀ fr ∈ sp.data, fr.length = expectedBins fb) :
    computeMFCC sp fb c = Except.ok (sp.data.map (fun fr => mfccClaimFrame fb fr c)) ∧
    (sp.data.map (fun fr => mfccClaimFrame fb fr c)).length = sp.data.length := by
  constructor
  · rw [computeMFCC]
    apply mapM_ok_of_forall_ok
    intro fr hin
    rw [MelFilterbank.apply, if_pos (hfr fr hin)]
    rw [Except.map, mfccClaimFrame]
    rw [dct2_eq_dct2Claim]
    rw [List.map_map, List.map_map, List.map_map]
    congr 1
  · exact List.length_map sp.data _

/-- Witness for C7: a one-frame spectrogram with the matching bin count
4/2 + 1 = 3 for a filterbank of fftSize 4. -/
theorem computeMFCC_dct2_orthonormal_witness :
    computeMFCC
      { data := [[1, 2, 3]], sampleRate := 4, hopSize := 1, windowSize := 4,
        nFrames := 1, nBins := 3 }
      (mkMelFilterbank 4 4 2 0 2) 2 =
    Except.ok ([[1, 2, 3]].map
      (fun fr => mfccClaimFrame (mkMelFilterbank 4 4 2 0 2) fr 2)) :=
  (computeMFCC_dct2_orthonormal
    { data := [[1, 2, 3]], sampleRate := 4, hopSize := 1, windowSize := 4,
      nFrames := 1, nBins := 3 }
    (mkMelFilterbank 4 4 2 0 2) 2 (by intro fr hfr; simp at hfr; simp [hfr, expectedBins, mkMelFilterbank])).1

theorem getD_replicate_zero (n i : ℕ) : (List.replicate n (0:ℝ)).getD i 0 = 0 := by
  simp [List.getD_eq_getElem?_getD, List.getElem?_replicate]
  split <;> simp

theorem colOf_replicate (L : ℕ) (fr : List ℝ) (f : ℕ) :
    colOf (List.replicate L fr) f = List.replicate L (fr.getD f 0) := by
  simp [colOf, List.map_replicate]

theorem normalizeAxis_replicate_zero (L : ℕ) :
    normalizeAxis (List.replicate L (0:ℝ)) = List.replicate L 0 := by
  rw [normalizeAxis]
  have hsum : (List.replicate L (0:ℝ)).sum = 0 := by simp
  have hsq : (List.replicate L (0:ℝ)).map
      (fun x => (x - (List.replicate L (0:ℝ)).sum / ((List.replicate L (0:ℝ)).length : ℝ)) *
        (x - (List.replicate L (0:ℝ)).sum / ((List.replicate L (0:ℝ)).length : ℝ))) =
      List.replicate L 0 := by
    rw [List.map_replicate, hsum]
    norm_num
  rw [hsq, hsum]
  simp only [List.sum_replicate, smul_zero, zero_div, Real.sqrt_zero]
  rw [if_neg (by norm_num)]

theorem pcaMeans_replicate_getD (L : ℕ) (fr : List ℝ) (f : ℕ) (hL : 1 ≤ L)
    (hf : f < fr.length) :
    (pcaMeans (List.replicate L fr) fr.length).getD f 0 = fr.getD f 0 := by
  rw [pcaMeans, getD_range_map _ _ _ hf, colOf_replicate]
  have hLne : ((List.replicate L fr).length : ℝ) ≠ 0 := by
    simp
    omega
  rw [List.sum_replicate, nsmul_eq_mul]
  rw [List.length_replicate] at *
  field_simp

theorem pcaCentered_replicate (L : ℕ) (fr : List ℝ) (hL : 1 ≤ L) :
    pcaCentered (List.replicate L fr) fr.length =
      List.replicate L ((List.range fr.length).map (fun _ => (0:ℝ))) := by
  rw [pcaCentered, List.map_replicate]
  congr 1
  apply List.map_congr_left
  intro f hf
  rw [List.mem_range] at hf
  rw [pcaMeans_replicate_getD L fr f hL hf]
  ring

theorem pcaProjected_replicate (L : ℕ) (fr : List ℝ) (hL : 1 ≤ L) :
    pcaProjected (List.replicate L fr) = List.replicate L [(0:ℝ), 0, 0] := by
  rw [pcaProjected]
  have hhead : ((List.replicate L fr).headD []).length = fr.length := by
    cases L with
    | zero => omega
    | succ n => rw [List.replicate_succ]; rfl
  rw [hhead]
  rw [pcaCentered_replicate L fr hL, List.map_replicate]
  congr 1
  have hz : ∀ f ∈ List.range fr.length,
      ((List.range fr.length).map (fun _ => (0:ℝ))).getD f 0 *
        (((computeTopEigenvectors
          (pcaCovariance (List.replicate L ((List.range fr.length).map (fun _ => (0:ℝ))))
            fr.length (List.replicate L fr).length) fr.length 3).getD 0 []).getD f 0) = 0 := by
    intro f hf
    rw [List.mem_range] at hf
    rw [getD_range_map _ _ _ hf]
    ring
  have hrow : ∀ pc : ℕ, ((List.range fr.length).map (fun f =>
      ((List.range fr.length).map (fun _ => (0:ℝ))).getD f 0 *
        (((computeTopEigenvectors
          (pcaCovariance (List.replicate L ((List.range fr.length).map (fun _ => (0:ℝ))))
            fr.length (List.replicate L fr).length) fr.length 3).getD pc []).getD f 0))).sum
      = 0 := by
    intro pc
    apply List.sum_eq_zero
    intro x hx
    obtain ⟨f, hf, rfl⟩ := List.mem_map.mp hx
    rw [List.mem_range] at hf
    rw [getD_range_map _ _ _ hf]
    ring
  show (List.range 3).map _ = [(0:ℝ), 0, 0]
  have : List.range 3 = [0, 1, 2] := by decide
  rw [this]
  simp only [List.map_cons, List.map_nil, hrow]

theorem normalizePoints_replicate_zero (L : ℕ) :
    normalizePoints (List.replicate L [(0:ℝ), 0, 0]) = List.replicate L [(0:ℝ), 0, 0] := by
  rw [normalizePoints]
  have hcol : ∀ pc : ℕ, colOf (List.replicate L [(0:ℝ), 0, 0]) pc =
      List.replicate L 0 := by
    intro pc
    rw [colOf_replicate]
    congr 1
    match pc with
    | 0 => rfl
    | 1 => rfl
    | 2 => rfl
    | (n + 3) => rfl
  refine List.eq_replicate_iff.mpr ⟨by simp, ?_⟩
  intro b hb
  obtain ⟨t, ht, rfl⟩ := List.mem_map.mp hb
  rw [List.mem_range] at ht
  simp only [List.length_replicate] at ht
  have : List.range 3 = [0, 1, 2] := by decide
  rw [this]
  simp only [List.map_cons, List.map_nil]
  rw [hcol 0, hcol 1, hcol 2, normalizeAxis_replicate_zero, getD_replicate_zero]

theorem computePCA3D_replicate (T : ℕ) (fr : List ℝ) :
    computePCA3D (List.replicate T fr) = List.replicate T [(0:ℝ), 0, 0] := by
  cases T with
  | zero => rfl
  | succ n =>
      rw [computePCA3D]
      rw [if_neg (by simp [List.isEmpty_iff])]
      rw [pcaProjected_replicate (n + 1) fr (by omega)]
      exact normalizePoints_replicate_zero (n + 1)

/-- C9: on a single-frame FeatureMatrix, computePCA3D returns exactly one
3-component point without dividing by zero: the single frame is centered to
itself, giving the zero vector; its projection is the zero point; the
zero-variance axes skip normalization, so the output equals the projection,
the single point [0, 0, 0]. -/
theorem computePCA3D_single_frame (frame : List ℝ) :
    computePCA3D [frame] = [[(0:ℝ), 0, 0]] ∧
    pcaCentered [frame] frame.length = [(List.range frame.length).map (fun _ => (0:ℝ))] ∧
    pcaProjected [frame] = [[(0:ℝ), 0, 0]] ∧
    computePCA3D [frame] = pcaProjected [frame] := by
  have h1 : [frame] = List.replicate 1 frame := rfl
  have hpca := computePCA3D_replicate 1 frame
  have hproj := pcaProjected_replicate 1 frame (by omega)
  have hcent := pcaCentered_replicate 1 frame (by omega)
  rw [h1]
  refine ⟨hpca, hcent, hproj, ?_⟩
  rw [hpca, hproj]

theorem normalizeAxis_eq (col : List ℝ) :
    normalizeAxis col =
      if 1e-6 < axisStd col then col.map (fun x => (x - axisMean col) / axisStd col)
      else col := rfl

theorem normalizeAxis_length (col : List ℝ) : (normalizeAxis col).length = col.length := by
  rw [normalizeAxis_eq]
  split <;> simp

theorem range_map_getD (A : List ℝ) (n : ℕ) (h : A.length = n) :
    (List.range n).map (fun t => A.getD t 0) = A := by
  subst h
  apply List.ext_getElem
  · simp
  · intro i h1 h2
    simp only [List.length_map, List.length_range] at h1
    rw [List.getElem_map, List.getElem_range]
    simp [List.getD_eq_getElem?_getD, List.getElem?_eq_getElem h2]

theorem colOf_normalizePoints (P : List (List ℝ)) (pc : ℕ) (hpc : pc < 3) :
    colOf (normalizePoints P) pc = normalizeAxis (colOf P pc) := by
  rw [normalizePoints, colOf, List.map_map]
  have h1 : ∀ t : ℕ, ((fun r => List.getD r pc 0) ∘ (fun t =>
      (List.range 3).map (fun pc2 => (normalizeAxis (colOf P pc2)).getD t 0))) t =
      (normalizeAxis (colOf P pc)).getD t 0 := by
    intro t
    exact getD_range_map _ _ _ hpc
  rw [List.map_congr_left (fun t _ => h1 t)]
  apply range_map_getD
  rw [normalizeAxis_length, colOf, List.length_map]

theorem sum_map_sub_const (col : List ℝ) (m : ℝ) :
    (col.map (fun x => x - m)).sum = col.sum - (col.length : ℝ) * m := by
  induction col with
  | nil => simp
  | cons x xs ih =>
      simp only [List.map_cons, List.sum_cons, List.length_cons, ih]
      push_cast
      ring

theorem axisStd_nonneg_arg (col : List ℝ) :
    0 ≤ ((col.map (fun x => (x - axisMean col) * (x - axisMean col))).sum) / (col.length : ℝ) := by
  apply div_nonneg
  · apply List.sum_nonneg
    intro x hx
    obtain ⟨a, _, rfl⟩ := List.mem_map.mp hx
    exact mul_self_nonneg _
  · positivity

theorem normalizeAxis_mean_std (col : List ℝ) (h : 1e-6 < axisStd col) :
    axisMean (normalizeAxis col) = 0 ∧ axisStd (normalizeAxis col) = 1 := by
  have hnecol : col ≠ [] := by
    intro h0
    rw [h0] at h
    simp [axisStd, axisMean] at h
    norm_num at h
  have hn : (0:ℝ) < (col.length : ℝ) := by
    cases col with
    | nil => exact absurd rfl hnecol
    | cons a l =>
        have : 0 < (a :: l).length := by simp
        exact_mod_cast this
  set m := axisMean col with hm
  set v := ((col.map (fun x => (x - m) * (x - m))).sum) / (col.length : ℝ) with hv
  have hstd : axisStd col = Real.sqrt v := rfl
  have hv0 : 0 ≤ v := axisStd_nonneg_arg col
  have hspos : 0 < Real.sqrt v := lt_trans (by norm_num) (hstd ▸ h)
  have hvpos : 0 < v := Real.sqrt_pos.mp hspos
  have hssq : Real.sqrt v * Real.sqrt v = v := Real.mul_self_sqrt hv0
  have hunfold : normalizeAxis col = col.map (fun x => (x - m) / Real.sqrt v) := by
    rw [normalizeAxis_eq, if_pos h, hstd]
  have hsubsum : (col.map (fun x => x - m)).sum = 0 := by
    rw [sum_map_sub_const, hm, axisMean]
    field_simp
  have hsum0 : (col.map (fun x => (x - m) / Real.sqrt v)).sum = 0 := by
    have hmm : col.map (fun x => (x - m) / Real.sqrt v) =
        col.map (fun x => (x - m) * (Real.sqrt v)⁻¹) := by
      apply List.map_congr_left
      intro x _
      rw [div_eq_mul_inv]
    rw [hmm, List.sum_map_mul_right, hsubsum, zero_mul]
  have hlen : (normalizeAxis col).length = col.length := normalizeAxis_length col
  have hmean : axisMean (normalizeAxis col) = 0 := by
    rw [axisMean, hlen, hunfold, hsum0, zero_div]
  refine ⟨hmean, ?_⟩
  rw [axisStd, hmean, hlen]
  have hsq : ((normalizeAxis col).map (fun x => (x - 0) * (x - 0))).sum =
      ((col.map (fun x => (x - m) * (x - m))).sum) * (v)⁻¹ := by
    rw [hunfold, List.map_map]
    have hcongr : ∀ x ∈ col, ((fun x => (x - 0) * (x - 0)) ∘ (fun x => (x - m) / Real.sqrt v)) x =
        (fun x => (x - m) * (x - m) * (v)⁻¹) x := by
      intro x _
      simp only [Function.comp_apply, sub_zero]
      rw [div_mul_div_comm, hssq, div_eq_mul_inv]
    rw [List.map_congr_left hcongr, List.sum_map_mul_right]
  rw [hsq]
  have hveq : ((col.map (fun x => (x - m) * (x - m))).sum) = v * (col.length : ℝ) := by
    rw [hv]
    field_simp
  rw [hveq]
  have : v * (col.length : ℝ) * v⁻¹ / (col.length : ℝ) = 1 := by
    field_simp
  rw [this, Real.sqrt_one]

theorem normalizeAxis_id_of_small (col : List ℝ) (h : ¬ 1e-6 < axisStd col) :
    normalizeAxis col = col := by
  rw [normalizeAxis_eq, if_neg h]

/-- C2: for a FeatureMatrix with at least one frame, every output axis of
computePCA3D whose standard deviation across frames exceeds 1e-6 is exactly
z-score normalized (mean 0, standard deviation 1 across frames, the real
arithmetic analogue of the floating tolerance), and every axis with
standard deviation at most 1e-6 is left exactly as projected, never divided
by the near-zero deviation. -/
theorem computePCA3D_axis_normalization (mfcc : List (List ℝ)) (hne : mfcc ≠ [])
    (pc : ℕ) (hpc : pc < 3) :
    (1e-6 < axisStd (colOf (computePCA3D mfcc) pc) →
      axisMean (colOf (computePCA3D mfcc) pc) = 0 ∧
      axisStd (colOf (computePCA3D mfcc) pc) = 1) ∧
    (axisStd (colOf (computePCA3D mfcc) pc) ≤ 1e-6 →
      colOf (computePCA3D mfcc) pc = colOf (pcaProjected mfcc) pc) := by
  have hout : computePCA3D mfcc = normalizePoints (pcaProjected mfcc) := by
    rw [computePCA3D, if_neg (by simp [List.isEmpty_iff, hne])]
  have hcol : colOf (computePCA3D mfcc) pc = normalizeAxis (colOf (pcaProjected mfcc) pc) := by
    rw [hout]
    exact colOf_normalizePoints (pcaProjected mfcc) pc hpc
  by_cases hstd : 1e-6 < axisStd (colOf (pcaProjected mfcc) pc)
  · obtain ⟨hm, hs⟩ := normalizeAxis_mean_std (colOf (pcaProjected mfcc) pc) hstd
    rw [hcol]
    constructor
    · intro _
      exact ⟨hm, hs⟩
    · intro hle
      rw [hs] at hle
      norm_num at hle
  · have heq : normalizeAxis (colOf (pcaProjected mfcc) pc) = colOf (pcaProjected mfcc) pc :=
      normalizeAxis_id_of_small _ hstd
    rw [hcol, heq]
    constructor
    · intro hgt
      exact absurd hgt hstd
    · intro _
      rfl

/-- Witness for C2 at the two-frame, one-feature matrix [[0], [2]], axis 0. -/
theorem computePCA3D_axis_normalization_witness :
    ([[0], [2]] : List (List ℝ)) ≠ [] ∧ (0 : ℕ) < 3 ∧
    ((1e-6 < axisStd (colOf (computePCA3D [[0], [2]]) 0) →
      axisMean (colOf (computePCA3D [[0], [2]]) 0) = 0 ∧
      axisStd (colOf (computePCA3D [[0], [2]]) 0) = 1) ∧
    (axisStd (colOf (computePCA3D [[0], [2]]) 0) ≤ 1e-6 →
      colOf (computePCA3D [[0], [2]]) 0 = colOf (pcaProjected [[0], [2]]) 0)) :=
  ⟨by simp, by decide,
    computePCA3D_axis_normalization [[0], [2]] (by simp) 0 (by decide)⟩

theorem deinterleaveEven_replicate (n : ℕ) :
    deinterleaveEven (List.replicate n (0:ℝ)) = List.replicate ((n + 1) / 2) 0 := by
  induction n using Nat.strong_induction_on with
  | _ n ih =>
    match n with
    | 0 => simp [deinterleaveEven]
    | 1 => simp [deinterleaveEven]
    | (m + 2) =>
        have h2 : List.replicate (m + 2) (0:ℝ) = 0 :: 0 :: List.replicate m 0 := by
          simp [List.replicate_succ]
        rw [h2]
        simp only [deinterleaveEven]
        rw [ih m (by omega)]
        have hc : (m + 2 + 1) / 2 = (m + 1) / 2 + 1 := by omega
        rw [hc, List.replicate_succ]

theorem deinterleaveOdd_replicate (n : ℕ) :
    deinterleaveOdd (List.replicate n (0:ℝ)) = List.replicate (n / 2) 0 := by
  induction n using Nat.strong_induction_on with
  | _ n ih =>
    match n with
    | 0 => simp [deinterleaveOdd]
    | 1 => simp [deinterleaveOdd]
    | (m + 2) =>
        have h2 : List.replicate (m + 2) (0:ℝ) = 0 :: 0 :: List.replicate m 0 := by
          simp [List.replicate_succ]
        rw [h2]
        simp only [deinterleaveOdd]
        rw [ih m (by omega)]
        have hc : (m + 2) / 2 = m / 2 + 1 := by omega
        rw [hc, List.replicate_succ]

theorem fft_replicate_zero (k : ℕ) :
    fft (List.replicate (2 ^ k) (0:ℝ)) = (List.replicate (2 ^ k) 0, List.replicate (2 ^ k) 0) := by
  induction k with
  | zero =>
      rw [fft]
      simp
  | succ k ih =>
      rw [fft]
      have hlen : (List.replicate (2 ^ (k + 1)) (0:ℝ)).length = 2 ^ (k + 1) := by simp
      have h2 : ¬ (List.replicate (2 ^ (k + 1)) (0:ℝ)).length ≤ 1 := by
        rw [hlen]
        have : 2 ≤ 2 ^ (k + 1) := by
          calc 2 = 2 ^ 1 := by norm_num
          _ ≤ 2 ^ (k + 1) := Nat.pow_le_pow_right (by norm_num) (by omega)
        omega
      rw [dif_neg h2]
      have he : deinterleaveEven (List.replicate (2 ^ (k + 1)) (0:ℝ)) =
          List.replicate (2 ^ k) 0 := by
        rw [deinterleaveEven_replicate]
        congr 1
        omega
      have ho : deinterleaveOdd (List.replicate (2 ^ (k + 1)) (0:ℝ)) =
          List.replicate (2 ^ k) 0 := by
        rw [deinterleaveOdd_replicate]
        congr 1
        omega
      simp only [he, ho, ih, hlen, getD_replicate_zero]
      have hhalf : 2 ^ (k + 1) / 2 = 2 ^ k := by omega
      simp only [hhalf, mul_zero, sub_zero, add_zero, zero_sub, neg_zero, zero_add,
        Prod.mk.injEq]
      constructor <;>
      · refine List.eq_replicate_iff.mpr ⟨by simp; omega, ?_⟩
        intro b hb
        simp at hb
        exact hb

theorem zipWith_mul_replicate_zero_left (a : ℕ) (b : List ℝ) :
    List.zipWith (· * ·) (List.replicate a (0:ℝ)) b = List.replicate (min a b.length) 0 := by
  induction b generalizing a with
  | nil => simp
  | cons x xs ih =>
      cases a with
      | zero => simp
      | succ n =>
          rw [List.replicate_succ, List.zipWith_cons_cons, ih, zero_mul]
          have hmin : min (n + 1) (x :: xs).length = min n xs.length + 1 := by
            simp [Nat.succ_min_succ]
          rw [hmin, List.replicate_succ]

theorem zipWith_mul_replicate_zero_right (a : ℕ) (b : List ℝ) :
    List.zipWith (· * ·) b (List.replicate a (0:ℝ)) = List.replicate (min b.length a) 0 := by
  induction b generalizing a with
  | nil => simp
  | cons x xs ih =>
      cases a with
      | zero => simp
      | succ n =>
          rw [List.replicate_succ, List.zipWith_cons_cons, ih, mul_zero]
          have hmin : min (x :: xs).length (n + 1) = min xs.length n + 1 := by
            simp [Nat.succ_min_succ]
          rw [hmin, List.replicate_succ]

theorem preEmphasis_replicate_zero (L : ℕ) :
    preEmphasis (List.replicate L (0:ℝ)) = List.replicate L 0 := by
  cases L with
  | zero => rfl
  | succ n =>
      rw [List.replicate_succ, preEmphasis]
      have hz : List.zipWith (fun cur prev => cur - preEmphasisCoeff * prev)
          (List.replicate n (0:ℝ)) (0 :: List.replicate n 0) =
          List.replicate n 0 := by
        rw [show (0 :: List.replicate n (0:ℝ)) = List.replicate (n + 1) 0 from
          (List.replicate_succ 0 n).symm]
        rw [List.zipWith_replicate]
        have : (0:ℝ) - preEmphasisCoeff * 0 = 0 := by ring
        rw [this]
        congr 1
        omega
      rw [hz, ← List.replicate_succ]

theorem clog2_2048 : Nat.clog 2 2048 = 11 := by
  have h1 : Nat.clog 2 2048 ≤ 11 := (Nat.le_pow_iff_clog_le (by norm_num)).mp (by norm_num)
  have h2 : ¬ (Nat.clog 2 2048 ≤ 10) := by
    intro hc
    have := (Nat.le_pow_iff_clog_le (by norm_num)).mpr hc
    norm_num at this
  omega

theorem nextPow2_2048 : nextPow2 2048 = 2048 := by
  rw [nextPow2, if_neg (by norm_num), clog2_2048]
  norm_num

theorem computeSpectrogram_zero_rows (L sr : ℕ) :
    ∀ fr ∈ (computeSpectrogram (List.replicate L (0:ℝ)) sr 2048 512 2000).data,
      fr = List.replicate 1025 (0:ℝ) := by
  intro fr hfr
  have hdata : (computeSpectrogram (List.replicate L (0:ℝ)) sr 2048 512 2000).data =
      (frameStarts L 2048 512
        (min (2000 : ℤ) ((((L : ℤ) - (2048 : ℤ)).fdiv (512 : ℤ)) + 1))).map (fun start =>
        let frame := ((List.replicate L (0:ℝ)).drop start).take 2048
        let windowed := applyWindow frame (hannWindow 2048)
        let padded := windowed ++ List.replicate (nextPow2 2048 - windowed.length) 0
        (magnitudeSpectrum (computeFFT padded (nextPow2 2048))).take (nextPow2 2048 / 2 + 1)) := by
    rw [computeSpectrogram, preEmphasis_replicate_zero, List.length_replicate]
    rfl
  rw [hdata] at hfr
  obtain ⟨start, hstart, rfl⟩ := List.mem_map.mp hfr
  have hg : start + 2048 ≤ L := by
    have := List.mem_takeWhile_imp hstart
    simpa using this
  have hframe : ((List.replicate L (0:ℝ)).drop start).take 2048 = List.replicate 2048 0 := by
    rw [List.drop_replicate, List.take_replicate]
    congr 1
    omega
  have hwin : applyWindow (List.replicate 2048 (0:ℝ)) (hannWindow 2048) =
      List.replicate 2048 0 := by
    rw [applyWindow, if_pos (by rw [List.length_replicate, hannWindow_length])]
    rw [zipWith_mul_replicate_zero_left, hannWindow_length]
    norm_num
  have hfft2 : computeFFT (List.replicate 2048 (0:ℝ)) 2048 =
      (List.replicate 2048 0, List.replicate 2048 0) := by
    rw [computeFFT, nextPow2_2048, List.take_replicate, List.length_replicate]
    have h1 : min 2048 2048 = 2048 := by norm_num
    have h2 : (2048 - 2048 : ℕ) = 0 := by norm_num
    rw [h1, h2, List.replicate_zero, List.append_nil]
    have h : (2048:ℕ) = 2 ^ 11 := by norm_num
    rw [h]
    exact fft_replicate_zero 11
  have hz : (2048 - 2048 : ℕ) = 0 := by norm_num
  simp only [hframe, hwin, List.length_replicate, nextPow2_2048, hz,
    List.replicate_zero, List.append_nil, hfft2, magnitudeSpectrum]
  rw [List.zipWith_replicate]
  have hval : Real.sqrt ((0:ℝ) * 0 + 0 * 0) = 0 := by norm_num
  rw [hval, List.take_replicate]
  congr 1

theorem dotList_replicate_zero_right (filt : List ℝ) (n : ℕ) :
    dotList filt (List.replicate n 0) = 0 := by
  rw [dotList, zipWith_mul_replicate_zero_right]
  simp

theorem melFilterbank_apply_zero (sr : ℕ) :
    (mkMelFilterbank sr 2048 128 500 12000).apply (List.replicate 1025 0) =
      Except.ok (List.replicate 128 0) := by
  have hbins : expectedBins (mkMelFilterbank sr 2048 128 500 12000) = 1025 := by
    rw [expectedBins, show (mkMelFilterbank sr 2048 128 500 12000).fftSize = 2048 from rfl]
  rw [MelFilterbank.apply, if_pos (by rw [List.length_replicate, hbins])]
  refine congrArg Except.ok ?_
  refine List.eq_replicate_iff.mpr ⟨?_, ?_⟩
  · rw [List.length_map]
    exact createFilters_length sr 2048 128 500 (min 12000 ((sr : ℝ) / 2))
  · intro b hb
    obtain ⟨filt, _, rfl⟩ := List.mem_map.mp hb
    exact dotList_replicate_zero_right filt 1025

/-- C3: the full worker pipeline (spectrogram, mel filterbank, MFCC, PCA)
on an all-zero sample buffer of any length yields only explicit finite
constants: every spectrogram magnitude is 0, the MFCC step succeeds with
every cepstral frame equal to the fixed vector dct2 of the constant
log10(1e-10) log-mel frame (the epsilon guarding the log of zero power),
and every 3D manifold point is [0, 0, 0] (the zero covariance passes the
norm guard and the zero variance passes the std guard, so no division by
zero or near-zero occurs).  In this real-number embedding that is the
content of the no-NaN/no-Infinity claim. -/
theorem pipeline_all_zero_no_degeneracy (L sr : ℕ) :
    (mfccPcaPipeline (List.replicate L 0) sr).1.data =
      List.replicate (mfccPcaPipeline (List.replicate L 0) sr).1.data.length
        (List.replicate 1025 (0:ℝ)) ∧
    (mfccPcaPipeline (List.replicate L 0) sr).2 =
      Except.ok
        (List.replicate (mfccPcaPipeline (List.replicate L 0) sr).1.data.length
           [(0:ℝ), 0, 0],
         List.replicate (mfccPcaPipeline (List.replicate L 0) sr).1.data.length
           (dct2 (List.replicate 128 (Real.logb 10 1e-10)) 40)) := by
  set sp := computeSpectrogram (List.replicate L (0:ℝ)) sr 2048 512 2000 with hsp
  have hrows : ∀ fr ∈ sp.data, fr = List.replicate 1025 (0:ℝ) :=
    computeSpectrogram_zero_rows L sr
  have hdataeq : sp.data = List.replicate sp.data.length (List.replicate 1025 (0:ℝ)) :=
    List.eq_replicate_iff.mpr ⟨rfl, hrows⟩
  have hfft : (match sp.data with
      | [] => 2048
      | row :: _ => (row.length - 1) * 2) = 2048 := by
    cases hd : sp.data with
    | nil => rfl
    | cons row rest =>
        have hrow : row = List.replicate 1025 (0:ℝ) := hrows row (by rw [hd]; simp)
        rw [hrow]
        norm_num
  have hcep : ∀ fr ∈ sp.data,
      (((mkMelFilterbank sr 2048 128 500 12000).apply fr).map (fun melSpectrum =>
        let powerSpectrum := melSpectrum.map (fun m => m * m)
        let logMel := powerSpectrum.map (fun p => Real.logb 10 (p + 1e-10))
        dct2 logMel 40)) =
      Except.ok (dct2 (List.replicate 128 (Real.logb 10 1e-10)) 40) := by
    intro fr hin
    rw [hrows fr hin, melFilterbank_apply_zero]
    rw [Except.map]
    simp only [List.map_replicate]
    have hval : Real.logb 10 ((0:ℝ) * 0 + 1e-10) = Real.logb 10 1e-10 := by norm_num
    rw [hval]
  have hmf : computeMFCC sp (mkMelFilterbank sr 2048 128 500 12000) 40 =
      Except.ok (List.replicate sp.data.length
        (dct2 (List.replicate 128 (Real.logb 10 1e-10)) 40)) := by
    rw [computeMFCC]
    rw [mapM_ok_of_forall_ok (fun _ => dct2 (List.replicate 128 (Real.logb 10 1e-10)) 40)
      hcep]
    congr 1
    rw [List.map_const']
  have hpca := computePCA3D_replicate sp.data.length
    (dct2 (List.replicate 128 (Real.logb 10 1e-10)) 40)
  have hpipe : mfccPcaPipeline (List.replicate L 0) sr =
      (sp, Except.ok (List.replicate sp.data.length [(0:ℝ), 0, 0],
        List.replicate sp.data.length
          (dct2 (List.replicate 128 (Real.logb 10 1e-10)) 40))) := by
    rw [mfccPcaPipeline, ← hsp, hfft, hmf]
    simp only [hpca]
  rw [hpipe]
  exact ⟨hdataeq, rfl⟩

theorem mapM_ok_exists {l : List (List ℝ)} {f : List ℝ → Except String (List ℝ)}
    (h : ∀ x ∈ l, ∃ y, f x = Except.ok y) :
    ∃ ys, l.mapM f = Except.ok ys := by
  induction l with
  | nil => exact ⟨[], rfl⟩
  | cons x xs ih =>
      obtain ⟨y, hy⟩ := h x (by simp)
      obtain ⟨ys, hys⟩ := ih (fun z hz => h z (by simp [hz]))
      refine ⟨y :: ys, ?_⟩
      rw [List.mapM_cons, hy, hys]
      rfl

theorem mfccPcaPipeline_emits_ok (s : List ℝ) (sr : ℕ) :
    ∃ m : List (List ℝ), (mfccPcaPipeline s sr).2 = Except.ok (computePCA3D m, m) := by
  set sp := computeSpectrogram s sr 2048 512 2000 with hsp
  have hbins : ∀ fr ∈ sp.data, fr.length = 1025 := by
    intro fr hfr
    have h2 := computeSpectrogram_bins s sr 2048 512 2000 (by norm_num) fr hfr
    rw [nextPow2_2048] at h2
    norm_num at h2
    exact h2
  have hfft : (match sp.data with
      | [] => 2048
      | row :: _ => (row.length - 1) * 2) = 2048 := by
    cases hd : sp.data with
    | nil => rfl
    | cons row rest =>
        have hrow := hbins row (by rw [hd]; simp)
        show (row.length - 1) * 2 = 2048
        rw [hrow]
  have hebins : expectedBins (mkMelFilterbank sr 2048 128 500 12000) = 1025 := by
    rw [expectedBins, show (mkMelFilterbank sr 2048 128 500 12000).fftSize = 2048 from rfl]
  have hall : ∀ fr ∈ sp.data, ∃ y,
      (((mkMelFilterbank sr 2048 128 500 12000).apply fr).map (fun melSpectrum =>
        let powerSpectrum := melSpectrum.map (fun mm => mm * mm)
        let logMel := powerSpectrum.map (fun p => Real.logb 10 (p + 1e-10))
        dct2 logMel 40)) = Except.ok y := by
    intro fr hfr
    rw [MelFilterbank.apply, if_pos (by rw [hbins fr hfr, hebins])]
    exact ⟨_, rfl⟩
  obtain ⟨m, hm⟩ := mapM_ok_exists hall
  have hmf : computeMFCC sp (mkMelFilterbank sr 2048 128 500 12000) 40 = Except.ok m := by
    rw [computeMFCC]
    exact hm
  refine ⟨m, ?_⟩
  rw [mfccPcaPipeline, ← hsp, hfft, hmf]

/-- C10: processing a CANCEL message in the worker is a complete no-op: it
posts no response at all (no acknowledgement, no error), and deleting it
from any position in the message queue leaves the entire worker response
stream unchanged, so it neither changes state nor prevents any other
request, earlier or later, from running to completion and emitting its
result. -/
theorem cancel_is_noop :
    processMessage WorkerMessage.cancel = [] ∧
    ∀ pre post : List WorkerMessage,
      runWorker (pre ++ WorkerMessage.cancel :: post) = runWorker (pre ++ post) := by
  constructor
  · rfl
  · intro pre post
    rw [runWorker, runWorker, List.flatMap_append, List.flatMap_append, List.flatMap_cons]
    rw [show processMessage WorkerMessage.cancel = [] from rfl, List.nil_append]

/-- C8 (amended): a CANCEL received by the worker does not suppress result
emission: a COMPUTE_SPECTROGRAM request still posts its SPECTROGRAM_COMPUTED
response and a COMPUTE_MFCC_PCA request still posts its MFCC_PCA_COMPUTED
response, even with a CANCEL received before the run; in this code base the
CANCEL case of the handler is empty and cancellation is effected outside
the worker by terminating it. -/
theorem worker_results_emitted_despite_cancel (s : List ℝ) (sr : ℕ)
    (rest : List WorkerMessage) :
    WorkerResponse.spectrogramComputed (computeSpectrogram s sr 2048 512 2000).data sr ∈
      runWorker (WorkerMessage.cancel :: WorkerMessage.computeSpectrogram s sr :: rest) ∧
    ∃ points mfcc, WorkerResponse.mfccPcaComputed points mfcc ∈
      runWorker (WorkerMessage.cancel :: WorkerMessage.computeMfccPca s sr :: rest) := by
  constructor
  · rw [runWorker, List.flatMap_cons, List.flatMap_cons]
    rw [show processMessage WorkerMessage.cancel = [] from rfl, List.nil_append]
    apply List.mem_append_left
    rw [show processMessage (WorkerMessage.computeSpectrogram s sr) =
      [WorkerResponse.progress "Computing spectrogram" 0.1,
       WorkerResponse.progress "Computing spectrogram" 0.9,
       WorkerResponse.spectrogramComputed (computeSpectrogram s sr 2048 512 2000).data
         (computeSpectrogram s sr 2048 512 2000).sampleRate] from rfl]
    have hsr : (computeSpectrogram s sr 2048 512 2000).sampleRate = sr := rfl
    rw [hsr]
    simp
  · obtain ⟨m, hm⟩ := mfccPcaPipeline_emits_ok s sr
    refine ⟨computePCA3D m, m, ?_⟩
    rw [runWorker, List.flatMap_cons, List.flatMap_cons]
    rw [show processMessage WorkerMessage.cancel = [] from rfl, List.nil_append]
    apply List.mem_append_left
    rw [processMessage, hm]
    simp

/-- Counterexample to C8 as stated: a cancellation received by the worker
before a run completes (here: received even before the run starts) does not
suppress the SPECTROGRAM_COMPUTED message of the run, because the CANCEL case of
the handler does nothing. -/
theorem cancel_does_not_suppress_result_cex :
    WorkerResponse.spectrogramComputed (computeSpectrogram [] 44100 2048 512 2000).data 44100 ∈
      runWorker [WorkerMessage.cancel, WorkerMessage.computeSpectrogram [] 44100] ∧
    (computeSpectrogram ([] : List ℝ) 44100 2048 512 2000).data = [] := by
  constructor
  · rw [runWorker, List.flatMap_cons, List.flatMap_cons, List.flatMap_nil]
    rw [show processMessage WorkerMessage.cancel = [] from rfl, List.nil_append]
    apply List.mem_append_left
    rw [show processMessage (WorkerMessage.computeSpectrogram [] 44100) =
      [WorkerResponse.progress "Computing spectrogram" 0.1,
       WorkerResponse.progress "Computing spectrogram" 0.9,
       WorkerResponse.spectrogramComputed (computeSpectrogram [] 44100 2048 512 2000).data
         (computeSpectrogram [] 44100 2048 512 2000).sampleRate] from rfl]
    have hsr : (computeSpectrogram ([] : List ℝ) 44100 2048 512 2000).sampleRate = 44100 := rfl
    rw [hsr]
    simp
  · have hstarts : frameStarts 0 2048 512
        (min (((2000 : ℕ) : ℤ)) ((((((0 : ℕ) : ℤ)) - (((2048 : ℕ) : ℤ))).fdiv
          (((512 : ℕ) : ℤ))) + 1)) = [] := by
      rw [frameStarts]
      rw [show (min (((2000 : ℕ) : ℤ)) ((((((0 : ℕ) : ℤ)) - (((2048 : ℕ) : ℤ))).fdiv
        (((512 : ℕ) : ℤ))) + 1)).toNat = 0 by decide]
      rfl
    rw [computeSpectrogram]
    rw [show preEmphasis ([] : List ℝ) = [] from rfl]
    rw [show ([] : List ℝ).length = 0 from rfl]
    rw [hstarts]
    rfl

end

end BirdSong
